import Mathlib

/-!
Shallow embedding of the container-store codec and import/merge algorithm of
the enhanced-palworld-xgp-import repository (files `utils.py`, `xbox_fs.py`,
`importer.py`).

Modelling conventions:
* A Python byte stream is a `List Nat` of byte values; `stream.read(n)`
  returns `take n` and advances by `drop n` (Python returns fewer bytes at
  end of stream without failing, which `take`/`drop` reproduce).
* A Python `str` is a `List Nat` of Unicode code points.  UTF-16-LE
  encoding/decoding is modelled explicitly, including surrogate pairs and
  strict failure on unpaired surrogates, matching CPython's strict codec.
* Fallible operations (raising exceptions) return `Option`/`Except`.
* `int.to_bytes(n, "little")` fails for out-of-range values, so the writers
  are `Option`-valued with an explicit range guard.
-/

namespace PalworldXgp

/-- Little-endian byte-list to unsigned integer, as `int.from_bytes(data, "little")`. -/
def fromLEBytes : List Nat → Nat
  | [] => 0
  | b :: bs => b + 256 * fromLEBytes bs

/-- Little-endian fixed-width byte rendering of an in-range value,
as `value.to_bytes(n, "little")` (range checking is done by the writers). -/
def toLEBytes : Nat → Nat → List Nat
  | 0, _ => []
  | n + 1, v => v % 256 :: toLEBytes n (v / 256)

/-- Source `utils.read_u8`: reads 1 byte; an empty read yields 0. -/
def read_u8 (s : List Nat) : Nat × List Nat :=
  (fromLEBytes (s.take 1), s.drop 1)

/-- Source `utils.read_u32`: reads 4 bytes little-endian; an empty read yields 0. -/
def read_u32 (s : List Nat) : Nat × List Nat :=
  (fromLEBytes (s.take 4), s.drop 4)

/-- Source `utils.read_u64`: reads 8 bytes little-endian; an empty read yields 0. -/
def read_u64 (s : List Nat) : Nat × List Nat :=
  (fromLEBytes (s.take 8), s.drop 8)

/-- Source `utils.write_u8`: `value.to_bytes(1, "little")`, failing out of range. -/
def write_u8 (v : Nat) : Option (List Nat) :=
  if v < 256 then some (toLEBytes 1 v) else none

/-- Source `utils.write_u32`: `value.to_bytes(4, "little")`, failing out of range. -/
def write_u32 (v : Nat) : Option (List Nat) :=
  if v < 2 ^ 32 then some (toLEBytes 4 v) else none

/-- Source `utils.write_u64`: `value.to_bytes(8, "little")`, failing out of range. -/
def write_u64 (v : Nat) : Option (List Nat) :=
  if v < 2 ^ 64 then some (toLEBytes 8 v) else none

/-- CPython `str.encode("utf-16-le")`: two bytes per BMP code point, a
four-byte surrogate pair per supplementary code point, and failure on a
lone surrogate code point. -/
def encodeUtf16le : List Nat → Option (List Nat)
  | [] => some []
  | c :: cs =>
    if 0xD800 ≤ c ∧ c < 0xE000 then none
    else if c < 0x10000 then
      (encodeUtf16le cs).map (fun bs => c % 256 :: c / 256 :: bs)
    else if c < 0x110000 then
      (encodeUtf16le cs).map (fun bs =>
        let v := c - 0x10000
        let hi := 0xD800 + v / 0x400
        let lo := 0xDC00 + v % 0x400
        hi % 256 :: hi / 256 :: lo % 256 :: lo / 256 :: bs)
    else none

/-- First half of `bytes.decode("utf-16-le")`: pair up bytes into 16-bit code
units, failing on an odd number of bytes (CPython: truncated data). -/
def bytesToUnits : List Nat → Option (List Nat)
  | [] => some []
  | [_] => none
  | b0 :: b1 :: rest => (bytesToUnits rest).map (fun us => (b0 + 256 * b1) :: us)

/-- Second half of `bytes.decode("utf-16-le")`: combine surrogate pairs,
failing on an unpaired surrogate (CPython strict mode). -/
def unitsToChars : List Nat → Option (List Nat)
  | [] => some []
  | u :: rest =>
    if 0xD800 ≤ u ∧ u < 0xDC00 then
      match rest with
      | [] => none
      | u2 :: rest2 =>
        if 0xDC00 ≤ u2 ∧ u2 < 0xE000 then
          (unitsToChars rest2).map
            (fun cs => (0x10000 + 0x400 * (u - 0xD800) + (u2 - 0xDC00)) :: cs)
        else none
    else if 0xDC00 ≤ u ∧ u < 0xE000 then none
    else (unitsToChars rest).map (fun cs => u :: cs)

/-- CPython `bytes.decode("utf-16-le")` in strict mode. -/
def decodeUtf16le (bs : List Nat) : Option (List Nat) :=
  (bytesToUnits bs).bind unitsToChars

/-- Python `str.rstrip("\u0000")`: drop trailing NUL code points. -/
def rstripNull (cs : List Nat) : List Nat :=
  (cs.reverse.dropWhile (fun c => c == 0)).reverse

/-- Source `utils.read_utf16_string`: a u32 character count then
`count * 2` bytes decoded as UTF-16-LE; a zero count short-circuits to "". -/
def read_utf16_string (s : List Nat) : Option (List Nat × List Nat) :=
  let (length, s1) := read_u32 s
  if length = 0 then some ([], s1)
  else (decodeUtf16le (s1.take (length * 2))).map
    (fun str => (str, s1.drop (length * 2)))

/-- Source `utils.read_utf16_fixed_string`: reads `length * 2` bytes, decodes
them as UTF-16-LE and strips trailing NULs. -/
def read_utf16_fixed_string (length : Nat) (s : List Nat) : Option (List Nat × List Nat) :=
  (decodeUtf16le (s.take (length * 2))).map
    (fun str => (rstripNull str, s.drop (length * 2)))

/-- Source `utils.write_utf16_string`: u32 character count then the UTF-16-LE
encoding of the value. -/
def write_utf16_string (v : List Nat) : Option (List Nat) := do
  let lenB ← write_u32 v.length
  let enc ← encodeUtf16le v
  pure (lenB ++ enc)

/-- Source `utils.write_utf16_fixed_string`: the UTF-16-LE encoding followed
by `2 * (length - len(value))` NUL bytes when the value is shorter than the
fixed width; note the source never truncates a longer value. -/
def write_utf16_fixed_string (v : List Nat) (length : Nat) : Option (List Nat) :=
  (encodeUtf16le v).map (fun enc => enc ++ List.replicate (2 * (length - v.length)) 0)

/-- Source `xbox_fs.Container`: one catalog entry of `containers.index`.
`mtime` is the wrapped `FileTime` 64-bit tick value; `container_uuid` is the
raw 16-byte identifier. -/
structure Container where
  container_name : List Nat
  cloud_id : List Nat
  seq : Nat
  flag : Nat
  container_uuid : List Nat
  mtime : Nat
  size : Nat
deriving DecidableEq

/-- Source `xbox_fs.Container.from_stream`, over a byte-list stream.  Mirrors
the read order and the three validation raises: name-repeat mismatch, the
cloud-id/flag-bit-4 check, and the non-zero reserved word.  `uuid.UUID(bytes=.)`
raises when fewer than 16 bytes remain, hence the length guard. -/
def Container.from_stream (s : List Nat) : Option (Container × List Nat) := do
  let (container_name, s1) ← read_utf16_string s
  let (container_name_null_term, s2) ← read_utf16_string s1
  if container_name ≠ container_name_null_term then none
  else do
    let (cloud_id, s3) ← read_utf16_string s2
    let (seq, s4) := read_u8 s3
    let (flag, s5) := read_u32 s4
    if (cloud_id = [] ∧ flag &&& 4 = 0) ∨ (cloud_id ≠ [] ∧ flag &&& 4 ≠ 0) then none
    else
      let uuidBytes := s5.take 16
      if uuidBytes.length ≠ 16 then none
      else
        let s6 := s5.drop 16
        let (mtime, s7) := read_u64 s6
        let (unknown, s8) := read_u64 s7
        if unknown ≠ 0 then none
        else
          let (size, s9) := read_u64 s8
          some (⟨container_name, cloud_id, seq, flag, uuidBytes, mtime, size⟩, s9)

/-- Source `xbox_fs.Container.to_bytes`: name written twice, then cloud id,
seq, flag, the 16 raw identifier bytes, mtime, an 8-byte zero reserved word
and the size. -/
def Container.to_bytes (c : Container) : Option (List Nat) := do
  let n1 ← write_utf16_string c.container_name
  let n2 ← write_utf16_string c.container_name
  let cl ← write_utf16_string c.cloud_id
  let sq ← write_u8 c.seq
  let fl ← write_u32 c.flag
  let mt ← write_u64 c.mtime
  let pad ← write_u64 0
  let sz ← write_u64 c.size
  pure (n1 ++ n2 ++ cl ++ sq ++ fl ++ c.container_uuid ++ mt ++ pad ++ sz)

/-- Source `xbox_fs.ContainerIndex`: the decoded `containers.index` file.
The element count is not a field; the writer recomputes it from
`containers`. -/
structure ContainerIndex where
  flag1 : Nat
  package_name : List Nat
  mtime : Nat
  flag2 : Nat
  index_uuid : List Nat
  unknown : Nat
  containers : List Container
deriving DecidableEq

/-- The decode loop of `ContainerIndex.from_stream`: exactly `n` container
records in sequence, propagating the first failure. -/
def readContainers : Nat → List Nat → Option (List Container × List Nat)
  | 0, s => some ([], s)
  | n + 1, s => do
    let (c, s1) ← Container.from_stream s
    let (cs, s2) ← readContainers n s1
    pure (c :: cs, s2)

/-- Source `xbox_fs.ContainerIndex.from_stream`: version word (must be 0xE),
count, flag1, package name, mtime, flag2, index id, reserved word, then
`count` container records. -/
def ContainerIndex.from_stream (s : List Nat) : Option (ContainerIndex × List Nat) :=
  let (version, s1) := read_u32 s
  if version ≠ 0xe then none
  else do
    let (file_count, s2) := read_u32 s1
    let (flag1, s3) := read_u32 s2
    let (package_name, s4) ← read_utf16_string s3
    let (mtime, s5) := read_u64 s4
    let (flag2, s6) := read_u32 s5
    let (index_uuid, s7) ← read_utf16_string s6
    let (unknown, s8) := read_u64 s7
    let (containers, s9) ← readContainers file_count s8
    pure (⟨flag1, package_name, mtime, flag2, index_uuid, unknown, containers⟩, s9)

/-- The encode loop of `ContainerIndex.write_file`: each container's bytes in
sequence order. -/
def writeContainers : List Container → Option (List Nat)
  | [] => some []
  | c :: cs => do
    let b ← c.to_bytes
    let bs ← writeContainers cs
    pure (b ++ bs)

/-- Source `xbox_fs.ContainerIndex.write_file` (byte image of the file it
writes): version 0xE, `len(self.containers)` as the count, flag1, package
name, mtime, flag2, index id, reserved word, then every container. -/
def ContainerIndex.write_file (x : ContainerIndex) : Option (List Nat) := do
  let v ← write_u32 0xe
  let cnt ← write_u32 x.containers.length
  let f1 ← write_u32 x.flag1
  let pn ← write_utf16_string x.package_name
  let mt ← write_u64 x.mtime
  let f2 ← write_u32 x.flag2
  let iu ← write_utf16_string x.index_uuid
  let un ← write_u64 x.unknown
  let cs ← writeContainers x.containers
  pure (v ++ cnt ++ f1 ++ pn ++ mt ++ f2 ++ iu ++ un ++ cs)

/-- CPython `uuid.UUID.bytes_le`: the first three GUID groups byte-reversed
(4, 2 and 2 bytes), the remaining 8 bytes unchanged. -/
def bytes_le (b : List Nat) : List Nat :=
  (b.take 4).reverse ++ ((b.drop 4).take 2).reverse ++ ((b.drop 6).take 2).reverse ++ b.drop 8

/-- One hex nibble as an uppercase character code, as produced by
`bytes.hex().upper()`. -/
def nibbleHexUpper (n : Nat) : Nat :=
  if n < 10 then 48 + n else 55 + n

/-- One byte as two uppercase hex character codes. -/
def byteHexUpper (b : Nat) : List Nat :=
  [nibbleHexUpper (b / 16), nibbleHexUpper (b % 16)]

/-- `bytes.hex().upper()` over a byte list, as a list of character codes. -/
def hexUpper : List Nat → List Nat
  | [] => []
  | b :: bs => byteHexUpper b ++ hexUpper bs

/-- The expression `some_uuid.bytes_le.hex().upper()` that every site in the
source uses to derive a filesystem name from a 16-byte identifier
(`xbox_fs.py` manifest decode and content-blob write, `importer.py`
container-directory creation). -/
def hexDirName (uuidBytes : List Nat) : List Nat :=
  hexUpper (bytes_le uuidBytes)

/-- Site `xbox_fs.ContainerFileList.from_stream` / `write_container`:
`file_uuid.bytes_le.hex().upper()` names the content-blob file. -/
def contentBlobName (fileUuidBytes : List Nat) : List Nat :=
  hexDirName fileUuidBytes

/-- Site `importer.PalworldImporter._create_container_entry`:
`container_uuid.bytes_le.hex().upper()` names the container directory. -/
def containersDirName (containerUuidBytes : List Nat) : List Nat :=
  hexDirName containerUuidBytes

/-- Source `xbox_fs.ContainerFile` as decoded from disk: fixed-width display
name, the 16 raw identifier bytes, and the content blob read fully into
memory. -/
structure ContainerFile where
  name : List Nat
  uuid : List Nat
  data : List Nat
deriving DecidableEq

/-- Source `xbox_fs.ContainerFileList`. -/
structure ContainerFileList where
  seq : Nat
  files : List ContainerFile
deriving DecidableEq

/-- The distinct failure modes of `ContainerFileList.from_stream`:
an unsupported version word, a UTF-16 decode failure on a fixed name,
too few bytes for `uuid.UUID(bytes=...)`, and the missing-content-blob
raise (carrying the hex filesystem name it looked up). -/
inductive FLError where
  | badVersion : Nat → FLError
  | utf16Error : FLError
  | shortRead : FLError
  | missingBlob : List Nat → FLError
deriving DecidableEq

/-- The per-element decode loop of `ContainerFileList.from_stream`.  The
directory is a map from filesystem name (character codes) to blob bytes;
`none` models `os.path.exists` returning false.  Errors carry the stream
state at the point of the raise, so consumption is observable. -/
def readFLFiles (dir : List Nat → Option (List Nat)) :
    Nat → List Nat → Except (FLError × List Nat) (List ContainerFile × List Nat)
  | 0, s => .ok ([], s)
  | n + 1, s =>
    match read_utf16_fixed_string 64 s with
    | none => .error (.utf16Error, s.drop 128)
    | some (file_name, s1) =>
      let s2 := s1.drop 16
      let uuidB := s2.take 16
      if uuidB.length ≠ 16 then .error (.shortRead, s2.drop 16)
      else
        let s3 := s2.drop 16
        match dir (hexDirName uuidB) with
        | none => .error (.missingBlob (hexDirName uuidB), s3)
        | some blob =>
          match readFLFiles dir n s3 with
          | .error e => .error e
          | .ok (fs, s4) => .ok (⟨file_name, uuidB, blob⟩ :: fs, s4)

/-- Source `xbox_fs.ContainerFileList.from_stream`: version word (must be 4),
element count, then the element loop; `seq` comes from the manifest
filename suffix, passed in by the caller here. -/
def ContainerFileList.from_stream (dir : List Nat → Option (List Nat)) (seq : Nat)
    (s : List Nat) : Except (FLError × List Nat) (ContainerFileList × List Nat) :=
  let (version, s1) := read_u32 s
  if version ≠ 4 then .error (.badVersion version, s1)
  else
    let (file_count, s2) := read_u32 s1
    match readFLFiles dir file_count s2 with
    | .error e => .error e
    | .ok (files, s3) => .ok (⟨seq, files⟩, s3)

/-- The name set `{c.container_name for c in new_containers}` of
`importer.PalworldImporter.import_save`, as a list whose membership is the
set membership. -/
def newContainerNames (new : List Container) : List (List Nat) :=
  new.map Container.container_name

/-- The merge step of `importer.PalworldImporter.import_save` (step 6):
keep only the existing entries whose name is not among the new names, then
append the new entries. -/
def mergeContainers (old new : List Container) : List Container :=
  old.filter (fun c => decide (c.container_name ∉ newContainerNames new)) ++ new

/-- The full in-memory index update of `import_save` step 6: replace the
container sequence by the merge result and the top-level mtime by the
current time. -/
def importMergeStep (idx : ContainerIndex) (new : List Container) (now : Nat) : ContainerIndex :=
  { idx with containers := mergeContainers idx.containers new, mtime := now }

/-- Source `importer.PalworldImporter._create_container_entry`, restricted to
the `Container` value it returns: cloud id empty, seq 1, flag 5, with the
fresh identifier and the source file's mtime ticks and size passed in. -/
def createContainerEntry (container_name : List Nat) (container_uuid : List Nat)
    (mtime : Nat) (size : Nat) : Container :=
  { container_name := container_name, cloud_id := [], seq := 1, flag := 5,
    container_uuid := container_uuid, mtime := mtime, size := size }

/-- Character codes of a Lean string literal, for concrete Python-str values. -/
def pyStr (s : String) : List Nat :=
  s.data.map Char.toNat

/-- A code point a Python str can hold that UTF-16 keeps in one code unit:
basic-plane and not a surrogate. -/
def validChar (c : Nat) : Prop :=
  c < 0xD800 ∨ (0xE000 ≤ c ∧ c < 0x10000)

/-- A string value that survives the source's length-prefixed UTF-16 codec:
single-code-unit characters and a length the u32 prefix can carry. -/
def validStr (v : List Nat) : Prop :=
  (∀ c ∈ v, validChar c) ∧ v.length < 2 ^ 32

/-- The UTF-16-LE byte image of a single-code-unit string: two little-endian
bytes per character. -/
def encBMP : List Nat → List Nat
  | [] => []
  | c :: cs => c % 256 :: c / 256 :: encBMP cs

/-- Field ranges under which every write in `Container.to_bytes` succeeds and
the identifier has the 16 bytes `uuid.UUID` guarantees. -/
def Container.valid (c : Container) : Prop :=
  validStr c.container_name ∧ validStr c.cloud_id ∧ c.seq < 256 ∧ c.flag < 2 ^ 32 ∧
  c.container_uuid.length = 16 ∧ c.mtime < 2 ^ 64 ∧ c.size < 2 ^ 64

/-- The record passes the cloud-id/flag-bit-4 validation of
`Container.from_stream` (which rejects when the two agree). -/
def Container.passesFlagCheck (c : Container) : Prop :=
  ¬((c.cloud_id = [] ∧ c.flag &&& 4 = 0) ∨ (c.cloud_id ≠ [] ∧ c.flag &&& 4 ≠ 0))

/-- The byte image `Container.to_bytes` produces for a valid record. -/
def containerBytes (c : Container) : List Nat :=
  (toLEBytes 4 c.container_name.length ++ encBMP c.container_name) ++
  ((toLEBytes 4 c.container_name.length ++ encBMP c.container_name) ++
  ((toLEBytes 4 c.cloud_id.length ++ encBMP c.cloud_id) ++
  (toLEBytes 1 c.seq ++ (toLEBytes 4 c.flag ++ (c.container_uuid ++
  (toLEBytes 8 c.mtime ++ (toLEBytes 8 0 ++ toLEBytes 8 c.size)))))))

/-- Index validity: every write of `ContainerIndex.write_file` succeeds and
every record decodes back, including passing the decode-time checks. -/
def ContainerIndex.valid (x : ContainerIndex) : Prop :=
  x.flag1 < 2 ^ 32 ∧ validStr x.package_name ∧ x.mtime < 2 ^ 64 ∧ x.flag2 < 2 ^ 32 ∧
  validStr x.index_uuid ∧ x.unknown < 2 ^ 64 ∧ x.containers.length < 2 ^ 32 ∧
  ∀ c ∈ x.containers, c.valid ∧ c.passesFlagCheck

/-- Inverse of one uppercase hex nibble character. -/
def unhexNibble (c : Nat) : Nat :=
  if c < 58 then c - 48 else c - 55

/-- Inverse of `hexUpper`: consume character codes two at a time. -/
def unhexPairs : List Nat → Option (List Nat)
  | [] => some []
  | [_] => none
  | c1 :: c2 :: r => (unhexPairs r).map (fun bs => (16 * unhexNibble c1 + unhexNibble c2) :: bs)

/-- Inverse of the filesystem-name derivation: undo the hex rendering, then
undo the `bytes_le` group reversal (which is an involution). -/
def fromHexDirName (s : List Nat) : Option (List Nat) :=
  (unhexPairs s).map bytes_le

/-- A manifest element as laid out on stream: 128 bytes of fixed-width name,
16 reserved bytes, 16 identifier bytes. -/
def flElemBytes (e : List Nat × List Nat × List Nat) : List Nat :=
  e.1 ++ (e.2.1 ++ e.2.2)

/-- A stream element the per-element loop can parse: correct field widths and
a cleanly decodable fixed name. -/
def wfFLElem (e : List Nat × List Nat × List Nat) : Prop :=
  e.1.length = 128 ∧ (decodeUtf16le e.1).isSome ∧ e.2.1.length = 16 ∧ e.2.2.length = 16

def concatBytes : List (List Nat) → List Nat
  | [] => []
  | b :: bs => b ++ concatBytes bs

/-- The whole byte stream of a `container.<seq>` manifest with the given
elements, followed by unrelated trailing bytes. -/
def flStream (elems : List (List Nat × List Nat × List Nat)) (trailing : List Nat) : List Nat :=
  toLEBytes 4 4 ++ (toLEBytes 4 elems.length ++ (concatBytes (elems.map flElemBytes) ++ trailing))

instance (c : Nat) : Decidable (validChar c) := by
  unfold validChar; infer_instance

instance (v : List Nat) : Decidable (validStr v) := by
  unfold validStr; infer_instance

instance (c : Container) : Decidable c.valid := by
  unfold Container.valid; infer_instance

instance (c : Container) : Decidable c.passesFlagCheck := by
  unfold Container.passesFlagCheck; infer_instance

instance (x : ContainerIndex) : Decidable x.valid := by
  unfold ContainerIndex.valid; infer_instance

instance (e : List Nat × List Nat × List Nat) : Decidable (wfFLElem e) := by
  unfold wfFLElem; infer_instance

/-- Byte stream of a container record with name "A", empty cloud id, seq 1,
flag 5 (bit 2 set), zero identifier, zero mtime, zero reserved word and zero
size. -/
def flagSetEmptyCloudBytes : List Nat :=
  [1, 0, 0, 0, 65, 0] ++ [1, 0, 0, 0, 65, 0] ++ [0, 0, 0, 0] ++ [1] ++ [5, 0, 0, 0] ++
  List.replicate 16 0 ++ List.replicate 8 0 ++ List.replicate 8 0 ++ List.replicate 8 0

def oldLevel : Container :=
  ⟨pyStr "Save1-Level", [], 1, 5, List.replicate 16 1, 10, 100⟩

def oldLevelMeta : Container :=
  ⟨pyStr "Save1-LevelMeta", [], 1, 5, List.replicate 16 2, 11, 101⟩

def newLevel : Container :=
  ⟨pyStr "Save1-Level", [], 1, 5, List.replicate 16 3, 20, 200⟩

def newPlayersABC : Container :=
  ⟨pyStr "Save1-Players-ABC", [], 1, 5, List.replicate 16 4, 21, 201⟩

/-- An index whose package name holds one supplementary-plane code point
(U+1D11E); its containers (none) vacuously satisfy every decode-time check. -/
def idxAstral : ContainerIndex := ⟨0, [119070], 0, 0, [], 0, []⟩

/-- A small index satisfying `ContainerIndex.valid`. -/
def idxGood : ContainerIndex :=
  ⟨2, pyStr "PocketpairInc.Palworld", 3, 4, pyStr "guid", 0, [oldLevel, oldLevelMeta]⟩

theorem toLEBytes_length (n v : Nat) : (toLEBytes n v).length = n := by
  induction n generalizing v with
  | zero => rfl
  | succ n ih => simp [toLEBytes, ih]

theorem fromLEBytes_toLEBytes (n v : Nat) (h : v < 2 ^ (8 * n)) :
    fromLEBytes (toLEBytes n v) = v := by
  induction n generalizing v with
  | zero =>
    simp only [Nat.mul_zero, pow_zero, Nat.lt_one_iff] at h
    simp [toLEBytes, fromLEBytes, h]
  | succ n ih =>
    have hdiv : v / 256 < 2 ^ (8 * n) := by
      rw [Nat.div_lt_iff_lt_mul (by norm_num : (0:Nat) < 256)]
      calc v < 2 ^ (8 * (n + 1)) := h
        _ = 2 ^ (8 * n) * 256 := by ring
    simp [toLEBytes, fromLEBytes, ih _ hdiv, Nat.mod_add_div]

theorem take_append_of_length {α : Type} (a b : List α) (n : Nat) (h : a.length = n) :
    (a ++ b).take n = a := by
  subst h; exact List.take_left a b

theorem drop_append_of_length {α : Type} (a b : List α) (n : Nat) (h : a.length = n) :
    (a ++ b).drop n = b := by
  subst h; exact List.drop_left a b

theorem read_u8_toLE (v : Nat) (rest : List Nat) (h : v < 256) :
    read_u8 (toLEBytes 1 v ++ rest) = (v, rest) := by
  rw [read_u8, take_append_of_length _ _ _ (toLEBytes_length 1 v),
    drop_append_of_length _ _ _ (toLEBytes_length 1 v),
    fromLEBytes_toLEBytes 1 v (by simpa using h)]

theorem read_u32_toLE (v : Nat) (rest : List Nat) (h : v < 2 ^ 32) :
    read_u32 (toLEBytes 4 v ++ rest) = (v, rest) := by
  rw [read_u32, take_append_of_length _ _ _ (toLEBytes_length 4 v),
    drop_append_of_length _ _ _ (toLEBytes_length 4 v),
    fromLEBytes_toLEBytes 4 v (by simpa using h)]

theorem read_u64_toLE (v : Nat) (rest : List Nat) (h : v < 2 ^ 64) :
    read_u64 (toLEBytes 8 v ++ rest) = (v, rest) := by
  rw [read_u64, take_append_of_length _ _ _ (toLEBytes_length 8 v),
    drop_append_of_length _ _ _ (toLEBytes_length 8 v),
    fromLEBytes_toLEBytes 8 v (by simpa using h)]

theorem encBMP_length (cs : List Nat) : (encBMP cs).length = 2 * cs.length := by
  induction cs with
  | nil => rfl
  | cons c cs ih => simp [encBMP, ih]; omega

theorem encodeUtf16le_bmp (cs : List Nat) (h : ∀ c ∈ cs, validChar c) :
    encodeUtf16le cs = some (encBMP cs) := by
  induction cs with
  | nil => rfl
  | cons c cs ih =>
    have hc := h c (by simp)
    simp only [validChar] at hc
    have h1 : ¬(0xD800 ≤ c ∧ c < 0xE000) := by omega
    have h2 : c < 0x10000 := by omega
    have hrest : ∀ x ∈ cs, validChar x := fun x hx => h x (by simp [hx])
    simp [encodeUtf16le, encBMP, h1, h2, ih hrest]

theorem bytesToUnits_encBMP (cs : List Nat) (h : ∀ c ∈ cs, c < 0x10000) :
    bytesToUnits (encBMP cs) = some cs := by
  induction cs with
  | nil => rfl
  | cons c cs ih =>
    have hrest : ∀ x ∈ cs, x < 0x10000 := fun x hx => h x (by simp [hx])
    simp [encBMP, bytesToUnits, ih hrest, Nat.mod_add_div]

theorem unitsToChars_bmp (cs : List Nat) (h : ∀ c ∈ cs, validChar c) :
    unitsToChars cs = some cs := by
  induction cs with
  | nil => rfl
  | cons c cs ih =>
    have hc := h c (by simp)
    simp only [validChar] at hc
    have h1 : ¬(0xD800 ≤ c ∧ c < 0xDC00) := by omega
    have h2 : ¬(0xDC00 ≤ c ∧ c < 0xE000) := by omega
    have hrest : ∀ x ∈ cs, validChar x := fun x hx => h x (by simp [hx])
    rw [unitsToChars.eq_def]
    simp [h1, h2, ih hrest]

theorem decodeUtf16le_encBMP (cs : List Nat) (h : ∀ c ∈ cs, validChar c) :
    decodeUtf16le (encBMP cs) = some cs := by
  have hlt : ∀ c ∈ cs, c < 0x10000 := by
    intro c hc
    have := h c hc
    simp only [validChar] at this
    omega
  rw [decodeUtf16le, bytesToUnits_encBMP cs hlt, Option.some_bind, unitsToChars_bmp cs h]

theorem write_utf16_string_eq (v : List Nat) (h : validStr v) :
    write_utf16_string v = some (toLEBytes 4 v.length ++ encBMP v) := by
  rw [write_utf16_string]
  rw [show write_u32 v.length = some (toLEBytes 4 v.length) from if_pos h.2]
  rw [encodeUtf16le_bmp v h.1]
  rfl

theorem read_write_utf16_string (v rest : List Nat) (h : validStr v) :
    read_utf16_string (toLEBytes 4 v.length ++ (encBMP v ++ rest)) = some (v, rest) := by
  simp only [read_utf16_string, read_u32_toLE v.length _ h.2]
  by_cases h0 : v.length = 0
  · have hv : v = [] := List.length_eq_zero.mp h0
    subst hv
    simp [encBMP]
  · rw [if_neg h0]
    have hlen : (encBMP v).length = v.length * 2 := by rw [encBMP_length]; ring
    rw [take_append_of_length _ _ _ hlen, drop_append_of_length _ _ _ hlen,
      decodeUtf16le_encBMP v h.1]
    rfl

theorem container_to_bytes_eq (c : Container) (h : c.valid) :
    c.to_bytes = some (containerBytes c) := by
  obtain ⟨h1, h2, h3, h4, h5, h6, h7⟩ := h
  have h4' : c.flag < 4294967296 := h4
  have h6' : c.mtime < 18446744073709551616 := h6
  have h7' : c.size < 18446744073709551616 := h7
  simp [Container.to_bytes, write_utf16_string_eq _ h1, write_utf16_string_eq _ h2,
    write_u8, write_u32, write_u64, h3, h4', h6', h7', containerBytes]

theorem container_from_stream_bytes (c : Container) (h : c.valid) (rest : List Nat) :
    Container.from_stream (containerBytes c ++ rest) =
      if (c.cloud_id = [] ∧ c.flag &&& 4 = 0) ∨ (c.cloud_id ≠ [] ∧ c.flag &&& 4 ≠ 0)
      then none else some (c, rest) := by
  obtain ⟨h1, h2, h3, h4, h5, h6, h7⟩ := h
  have hn : ∀ r, read_utf16_string (toLEBytes 4 c.container_name.length ++
      (encBMP c.container_name ++ r)) = some (c.container_name, r) :=
    fun r => read_write_utf16_string _ r h1
  have hcl : ∀ r, read_utf16_string (toLEBytes 4 c.cloud_id.length ++
      (encBMP c.cloud_id ++ r)) = some (c.cloud_id, r) :=
    fun r => read_write_utf16_string _ r h2
  have hs : ∀ r, read_u8 (toLEBytes 1 c.seq ++ r) = (c.seq, r) :=
    fun r => read_u8_toLE _ r h3
  have hf : ∀ r, read_u32 (toLEBytes 4 c.flag ++ r) = (c.flag, r) :=
    fun r => read_u32_toLE _ r h4
  have hu1 : ∀ r, read_u64 (toLEBytes 8 c.mtime ++ r) = (c.mtime, r) :=
    fun r => read_u64_toLE _ r h6
  have hu2 : ∀ r, read_u64 (toLEBytes 8 0 ++ r) = (0, r) :=
    fun r => read_u64_toLE _ r (by norm_num)
  have hu3 : ∀ r, read_u64 (toLEBytes 8 c.size ++ r) = (c.size, r) :=
    fun r => read_u64_toLE _ r h7
  have htk : ∀ b : List Nat, (c.container_uuid ++ b).take 16 = c.container_uuid :=
    fun b => take_append_of_length _ b 16 h5
  have hdp : ∀ b : List Nat, (c.container_uuid ++ b).drop 16 = b :=
    fun b => drop_append_of_length _ b 16 h5
  simp only [containerBytes, List.append_assoc]
  simp only [Container.from_stream, hn, hcl, hs, hf, hu1, hu2, hu3, htk, hdp,
    Option.bind_eq_bind', Option.some_bind, Option.pure_def, ne_eq]
  simp [h5]

/-- Combined record-level roundtrip: a valid record that passes the
cloud-id/flag check decodes from its own encoding, leaving the rest of the
stream untouched. -/
theorem container_roundtrip (c : Container) (rest : List Nat) (hv : c.valid)
    (hp : c.passesFlagCheck) :
    c.to_bytes = some (containerBytes c) ∧
      Container.from_stream (containerBytes c ++ rest) = some (c, rest) := by
  refine ⟨container_to_bytes_eq c hv, ?_⟩
  rw [container_from_stream_bytes c hv rest, if_neg hp]

theorem writeContainers_readContainers (cs : List Container) (rest : List Nat)
    (h : ∀ c ∈ cs, c.valid ∧ c.passesFlagCheck) :
    ∃ out, writeContainers cs = some out ∧
      readContainers cs.length (out ++ rest) = some (cs, rest) := by
  induction cs generalizing rest with
  | nil => exact ⟨[], rfl, rfl⟩
  | cons c cs ih =>
    have hc := h c (by simp)
    obtain ⟨out, hw, hr⟩ := ih rest (fun x hx => h x (by simp [hx]))
    obtain ⟨hcb, hcs⟩ := container_roundtrip c (out ++ rest) hc.1 hc.2
    refine ⟨containerBytes c ++ out, ?_, ?_⟩
    · simp [writeContainers, hcb, hw, Option.bind_eq_bind', Option.some_bind]
    · simp only [List.length_cons, readContainers, List.append_assoc, hcs,
        Option.bind_eq_bind', Option.some_bind, hr, Option.pure_def]

/-- Full index roundtrip, generalized over a trailing stream. -/
theorem containerIndex_roundtrip_aux (x : ContainerIndex) (rest : List Nat)
    (h : x.valid) :
    ∃ body, x.write_file = some (toLEBytes 4 0xe ++
        (toLEBytes 4 x.containers.length ++ body)) ∧
      ContainerIndex.from_stream ((toLEBytes 4 0xe ++
        (toLEBytes 4 x.containers.length ++ body)) ++ rest) = some (x, rest) := by
  obtain ⟨h1, h2, h3, h4, h5, h6, h7, h8⟩ := h
  obtain ⟨cbody, hw, hr⟩ := writeContainers_readContainers x.containers rest h8
  have hpn : ∀ r, read_utf16_string (toLEBytes 4 x.package_name.length ++
      (encBMP x.package_name ++ r)) = some (x.package_name, r) :=
    fun r => read_write_utf16_string _ r h2
  have hiu : ∀ r, read_utf16_string (toLEBytes 4 x.index_uuid.length ++
      (encBMP x.index_uuid ++ r)) = some (x.index_uuid, r) :=
    fun r => read_write_utf16_string _ r h5
  have hf1 : ∀ r, read_u32 (toLEBytes 4 x.flag1 ++ r) = (x.flag1, r) :=
    fun r => read_u32_toLE _ r h1
  have hf2 : ∀ r, read_u32 (toLEBytes 4 x.flag2 ++ r) = (x.flag2, r) :=
    fun r => read_u32_toLE _ r h4
  have hmt : ∀ r, read_u64 (toLEBytes 8 x.mtime ++ r) = (x.mtime, r) :=
    fun r => read_u64_toLE _ r h3
  have hun : ∀ r, read_u64 (toLEBytes 8 x.unknown ++ r) = (x.unknown, r) :=
    fun r => read_u64_toLE _ r h6
  have hcnt : ∀ r, read_u32 (toLEBytes 4 x.containers.length ++ r) =
      (x.containers.length, r) := fun r => read_u32_toLE _ r h7
  have hver : ∀ r, read_u32 (toLEBytes 4 0xe ++ r) = (0xe, r) :=
    fun r => read_u32_toLE _ r (by norm_num)
  refine ⟨toLEBytes 4 x.flag1 ++ ((toLEBytes 4 x.package_name.length ++
    encBMP x.package_name) ++ (toLEBytes 8 x.mtime ++ (toLEBytes 4 x.flag2 ++
    ((toLEBytes 4 x.index_uuid.length ++ encBMP x.index_uuid) ++
    (toLEBytes 8 x.unknown ++ cbody))))), ?_, ?_⟩
  · simp [ContainerIndex.write_file, write_u32, write_u64,
      write_utf16_string_eq _ h2, write_utf16_string_eq _ h5, hw,
      show x.flag1 < 4294967296 from h1, show x.flag2 < 4294967296 from h4,
      show x.mtime < 18446744073709551616 from h3,
      show x.unknown < 18446744073709551616 from h6,
      show x.containers.length < 4294967296 from h7,
      Option.bind_eq_bind', Option.some_bind]
  · simp only [List.append_assoc]
    simp only [ContainerIndex.from_stream, hver, hcnt, hf1, hf2, hpn, hiu, hmt, hun, hr,
      Option.bind_eq_bind', Option.some_bind, Option.pure_def]
    simp

theorem unhexNibble_nibbleHexUpper (n : Nat) (h : n < 16) :
    unhexNibble (nibbleHexUpper n) = n := by
  simp only [nibbleHexUpper, unhexNibble]
  split <;> split <;> omega

theorem unhexPairs_hexUpper (bs : List Nat) (h : ∀ b ∈ bs, b < 256) :
    unhexPairs (hexUpper bs) = some bs := by
  induction bs with
  | nil => rfl
  | cons b bs ih =>
    have hb := h b (by simp)
    have h1 : b / 16 < 16 := by omega
    have h2 : b % 16 < 16 := by omega
    simp [hexUpper, byteHexUpper, unhexPairs, ih (fun x hx => h x (by simp [hx])),
      unhexNibble_nibbleHexUpper _ h1, unhexNibble_nibbleHexUpper _ h2]
    omega

theorem bytes_le_bytes_le (b : List Nat) (h : b.length = 16) :
    bytes_le (bytes_le b) = b := by
  obtain ⟨a0, t0, rfl⟩ := List.exists_of_length_succ b h
  simp only [List.length_cons] at h
  obtain ⟨a1, t1, rfl⟩ := List.exists_of_length_succ t0 (show t0.length = 14 + 1 by omega)
  simp only [List.length_cons] at h
  obtain ⟨a2, t2, rfl⟩ := List.exists_of_length_succ t1 (show t1.length = 13 + 1 by omega)
  simp only [List.length_cons] at h
  obtain ⟨a3, t3, rfl⟩ := List.exists_of_length_succ t2 (show t2.length = 12 + 1 by omega)
  simp only [List.length_cons] at h
  obtain ⟨a4, t4, rfl⟩ := List.exists_of_length_succ t3 (show t3.length = 11 + 1 by omega)
  simp only [List.length_cons] at h
  obtain ⟨a5, t5, rfl⟩ := List.exists_of_length_succ t4 (show t4.length = 10 + 1 by omega)
  simp only [List.length_cons] at h
  obtain ⟨a6, t6, rfl⟩ := List.exists_of_length_succ t5 (show t5.length = 9 + 1 by omega)
  simp only [List.length_cons] at h
  obtain ⟨a7, t7, rfl⟩ := List.exists_of_length_succ t6 (show t6.length = 8 + 1 by omega)
  simp only [List.length_cons] at h
  obtain ⟨a8, t8, rfl⟩ := List.exists_of_length_succ t7 (show t7.length = 7 + 1 by omega)
  simp only [List.length_cons] at h
  obtain ⟨a9, t9, rfl⟩ := List.exists_of_length_succ t8 (show t8.length = 6 + 1 by omega)
  simp only [List.length_cons] at h
  obtain ⟨a10, t10, rfl⟩ := List.exists_of_length_succ t9 (show t9.length = 5 + 1 by omega)
  simp only [List.length_cons] at h
  obtain ⟨a11, t11, rfl⟩ := List.exists_of_length_succ t10 (show t10.length = 4 + 1 by omega)
  simp only [List.length_cons] at h
  obtain ⟨a12, t12, rfl⟩ := List.exists_of_length_succ t11 (show t11.length = 3 + 1 by omega)
  simp only [List.length_cons] at h
  obtain ⟨a13, t13, rfl⟩ := List.exists_of_length_succ t12 (show t12.length = 2 + 1 by omega)
  simp only [List.length_cons] at h
  obtain ⟨a14, t14, rfl⟩ := List.exists_of_length_succ t13 (show t13.length = 1 + 1 by omega)
  simp only [List.length_cons] at h
  obtain ⟨a15, t15, rfl⟩ := List.exists_of_length_succ t14 (show t14.length = 0 + 1 by omega)
  simp only [List.length_cons] at h
  obtain rfl : t15 = [] := List.eq_nil_of_length_eq_zero (by omega)
  rfl

theorem mem_bytes_le {x : Nat} {b : List Nat} (h : x ∈ bytes_le b) : x ∈ b := by
  simp only [bytes_le, List.mem_append, List.mem_reverse] at h
  rcases h with ((h | h) | h) | h
  · exact List.mem_of_mem_take h
  · exact List.mem_of_mem_drop (List.mem_of_mem_take h)
  · exact List.mem_of_mem_drop (List.mem_of_mem_take h)
  · exact List.mem_of_mem_drop h

theorem bytes_le_length (b : List Nat) (h : b.length = 16) :
    (bytes_le b).length = 16 := by
  simp only [bytes_le, List.length_append, List.length_reverse, List.length_take,
    List.length_drop, h]
  norm_num

theorem fromHexDirName_hexDirName (b : List Nat) (hlen : b.length = 16)
    (hb : ∀ x ∈ b, x < 256) :
    fromHexDirName (hexDirName b) = some b := by
  have hmem : ∀ x ∈ bytes_le b, x < 256 := fun x hx => hb x (mem_bytes_le hx)
  rw [fromHexDirName, hexDirName, unhexPairs_hexUpper _ hmem, Option.map_some',
    bytes_le_bytes_le b hlen]

theorem hexDirName_injective (b b' : List Nat) (hlen : b.length = 16)
    (hb : ∀ x ∈ b, x < 256) (hlen' : b'.length = 16) (hb' : ∀ x ∈ b', x < 256)
    (h : hexDirName b = hexDirName b') : b = b' := by
  have h1 := fromHexDirName_hexDirName b hlen hb
  have h2 := fromHexDirName_hexDirName b' hlen' hb'
  rw [h, h2] at h1
  exact (Option.some_injective _ h1).symm

theorem merge_kept_sublist (old new : List Container) :
    (old.filter (fun c => decide (c.container_name ∉ newContainerNames new))).Sublist old :=
  List.filter_sublist old

theorem encBMP_append (a b : List Nat) : encBMP (a ++ b) = encBMP a ++ encBMP b := by
  induction a with
  | nil => rfl
  | cons c cs ih => simp [encBMP, ih]

theorem encBMP_replicate_zero (k : Nat) :
    encBMP (List.replicate k 0) = List.replicate (2 * k) 0 := by
  induction k with
  | zero => rfl
  | succ k ih =>
    simp only [List.replicate_succ, encBMP, ih]
    rw [show 2 * (k + 1) = (2 * k) + 1 + 1 by ring]
    simp [List.replicate_succ]

theorem dropWhile_zero_replicate_append (k : Nat) (x : List Nat) :
    List.dropWhile (fun c => c == 0) (List.replicate k 0 ++ x) =
      List.dropWhile (fun c => c == 0) x := by
  induction k with
  | zero => rfl
  | succ k ih => simp [List.replicate_succ, List.dropWhile_cons, ih]

theorem rstripNull_append_replicate_zero (s : List Nat) (k : Nat) :
    rstripNull (s ++ List.replicate k 0) = rstripNull s := by
  rw [rstripNull, rstripNull, List.reverse_append, List.reverse_replicate,
    dropWhile_zero_replicate_append]

theorem write_utf16_fixed_string_eq (v : List Nat) (N : Nat) (hc : ∀ c ∈ v, validChar c) :
    write_utf16_fixed_string v N =
      some (encBMP v ++ List.replicate (2 * (N - v.length)) 0) := by
  rw [write_utf16_fixed_string, encodeUtf16le_bmp v hc]
  rfl

theorem fixed_bytes_as_encBMP (v : List Nat) (N : Nat) :
    encBMP v ++ List.replicate (2 * (N - v.length)) 0 =
      encBMP (v ++ List.replicate (N - v.length) 0) := by
  rw [encBMP_append, encBMP_replicate_zero]

theorem read_write_utf16_fixed_string (v rest : List Nat) (N : Nat)
    (hc : ∀ c ∈ v, validChar c) (hle : v.length ≤ N) :
    read_utf16_fixed_string N
        ((encBMP v ++ List.replicate (2 * (N - v.length)) 0) ++ rest) =
      some (rstripNull v, rest) := by
  have hpad : ∀ c ∈ v ++ List.replicate (N - v.length) 0, validChar c := by
    intro c hcm
    rcases List.mem_append.mp hcm with h | h
    · exact hc c h
    · have := List.eq_of_mem_replicate h
      subst this
      left; omega
  have hlen : (encBMP v ++ List.replicate (2 * (N - v.length)) 0).length = N * 2 := by
    simp [encBMP_length, List.length_replicate]
    omega
  rw [read_utf16_fixed_string, take_append_of_length _ _ _ hlen,
    drop_append_of_length _ _ _ hlen, fixed_bytes_as_encBMP,
    decodeUtf16le_encBMP _ hpad, Option.map_some',
    rstripNull_append_replicate_zero]

theorem concatBytes_append (a b : List (List Nat)) :
    concatBytes (a ++ b) = concatBytes a ++ concatBytes b := by
  induction a with
  | nil => rfl
  | cons x xs ih => simp [concatBytes, ih]

theorem readFLFiles_cons (dir : List Nat → Option (List Nat)) (n : Nat)
    (nameB cloudB uuidB R t : List Nat)
    (h1 : nameB.length = 128) (h2 : decodeUtf16le nameB = some t)
    (h3 : cloudB.length = 16) (h4 : uuidB.length = 16) :
    readFLFiles dir (n + 1) (nameB ++ (cloudB ++ (uuidB ++ R))) =
      match dir (hexDirName uuidB) with
      | none => .error (.missingBlob (hexDirName uuidB), R)
      | some blob =>
        match readFLFiles dir n R with
        | .error e => .error e
        | .ok (fs, s4) => .ok (⟨rstripNull t, uuidB, blob⟩ :: fs, s4) := by
  have hname : read_utf16_fixed_string 64 (nameB ++ (cloudB ++ (uuidB ++ R))) =
      some (rstripNull t, cloudB ++ (uuidB ++ R)) := by
    rw [read_utf16_fixed_string,
      take_append_of_length nameB _ (64 * 2) (by simpa using h1),
      drop_append_of_length nameB _ (64 * 2) (by simpa using h1), h2]
    rfl
  have hd3 : ∀ r : List Nat, (cloudB ++ r).drop 16 = r :=
    fun r => drop_append_of_length _ r 16 h3
  have ht4 : ∀ r : List Nat, (uuidB ++ r).take 16 = uuidB :=
    fun r => take_append_of_length _ r 16 h4
  have hd4 : ∀ r : List Nat, (uuidB ++ r).drop 16 = r :=
    fun r => drop_append_of_length _ r 16 h4
  rw [readFLFiles, hname]
  simp only [hd3, ht4, hd4, h4]
  simp

theorem readFLFiles_missing (dir : List Nat → Option (List Nat))
    (pre : List (List Nat × List Nat × List Nat)) (ek : List Nat × List Nat × List Nat)
    (m : Nat) (R : List Nat)
    (hwfpre : ∀ e ∈ pre, wfFLElem e) (hwfk : wfFLElem ek)
    (hpre : ∀ e ∈ pre, (dir (hexDirName e.2.2)).isSome)
    (hk : dir (hexDirName ek.2.2) = none) :
    readFLFiles dir (pre.length + (m + 1))
        (concatBytes (pre.map flElemBytes) ++ (flElemBytes ek ++ R)) =
      .error (.missingBlob (hexDirName ek.2.2), R) := by
  induction pre generalizing m with
  | nil =>
    obtain ⟨hk1, hk2, hk3, hk4⟩ := hwfk
    obtain ⟨t, ht⟩ := Option.isSome_iff_exists.mp hk2
    simp only [concatBytes, List.length_nil, Nat.zero_add, List.map_nil, List.nil_append]
    rw [show flElemBytes ek ++ R = ek.1 ++ (ek.2.1 ++ (ek.2.2 ++ R)) by
      simp [flElemBytes, List.append_assoc]]
    rw [readFLFiles_cons dir m ek.1 ek.2.1 ek.2.2 R t hk1 ht hk3 hk4, hk]
  | cons e pre ih =>
    obtain ⟨he1, he2, he3, he4⟩ := hwfpre e (by simp)
    obtain ⟨t, ht⟩ := Option.isSome_iff_exists.mp he2
    obtain ⟨blob, hblob⟩ := Option.isSome_iff_exists.mp (hpre e (by simp))
    have hstream : concatBytes ((e :: pre).map flElemBytes) ++ (flElemBytes ek ++ R) =
        e.1 ++ (e.2.1 ++ (e.2.2 ++
          (concatBytes (pre.map flElemBytes) ++ (flElemBytes ek ++ R)))) := by
      simp [concatBytes, flElemBytes, List.append_assoc]
    have hlen : (e :: pre).length + (m + 1) = (pre.length + (m + 1)) + 1 := by
      simp [List.length_cons]
      omega
    rw [hstream, hlen,
      readFLFiles_cons dir (pre.length + (m + 1)) e.1 e.2.1 e.2.2 _ t he1 ht he3 he4,
      hblob,
      ih m (fun x hx => hwfpre x (by simp [hx])) (fun x hx => hpre x (by simp [hx]))]

/-- C8: decoding a manifest whose element at position k (= the number of
preceding elements) references an identifier with no content-blob file in
the directory fails with the missing-blob error right after that element's
fields, leaving exactly the bytes of the later elements (and any trailing
bytes) unconsumed. -/
theorem claim8_missing_blob (dir : List Nat → Option (List Nat)) (seq : Nat)
    (pre : List (List Nat × List Nat × List Nat)) (ek : List Nat × List Nat × List Nat)
    (post : List (List Nat × List Nat × List Nat)) (trailing : List Nat)
    (hcount : (pre ++ ek :: post).length < 2 ^ 32)
    (hwfpre : ∀ e ∈ pre, wfFLElem e) (hwfk : wfFLElem ek)
    (hpre : ∀ e ∈ pre, (dir (hexDirName e.2.2)).isSome)
    (hk : dir (hexDirName ek.2.2) = none) :
    ContainerFileList.from_stream dir seq (flStream (pre ++ ek :: post) trailing) =
      .error (.missingBlob (hexDirName ek.2.2),
        concatBytes (post.map flElemBytes) ++ trailing) := by
  have hver : ∀ r, read_u32 (toLEBytes 4 4 ++ r) = (4, r) :=
    fun r => read_u32_toLE 4 r (by norm_num)
  have hcnt : ∀ r, read_u32 (toLEBytes 4 (pre ++ ek :: post).length ++ r) =
      ((pre ++ ek :: post).length, r) := fun r => read_u32_toLE _ r hcount
  have hbytes : concatBytes ((pre ++ ek :: post).map flElemBytes) ++ trailing =
      concatBytes (pre.map flElemBytes) ++
        (flElemBytes ek ++ (concatBytes (post.map flElemBytes) ++ trailing)) := by
    simp [List.map_append, concatBytes_append, concatBytes, List.append_assoc]
  have hlen : (pre ++ ek :: post).length = pre.length + (post.length + 1) := by
    simp [List.length_append, List.length_cons]
  rw [ContainerFileList.from_stream, flStream]
  simp only [hver]
  simp only [if_neg (by norm_num : ¬(4 : Nat) ≠ 4)]
  simp only [hbytes]
  simp only [hcnt]
  simp only [hlen]
  rw [readFLFiles_missing dir pre ek post.length
    (concatBytes (post.map flElemBytes) ++ trailing) hwfpre hwfk hpre hk]

/-- C1 counterexample: a container record with flag bit 2 set (flag = 5) and
an empty cloud id decodes successfully, instead of being rejected as the
claim states. -/
theorem claim1_counterexample :
    Container.from_stream flagSetEmptyCloudBytes =
      some (⟨[65], [], 1, 5, List.replicate 16 0, 0, 0⟩, []) ∧
    (5 : Nat) &&& 4 ≠ 0 := by decide

/-- C1 (amended): for every valid container record, decoding its encoding
fails exactly when flag bit 2 and the presence of a non-empty cloud id
AGREE (set with non-empty, or clear with empty); a record where they
disagree passes the check and decodes back to itself. -/
theorem claim1_flag_cloud_gate (c : Container) (rest : List Nat) (h : c.valid) :
    ∃ out, c.to_bytes = some out ∧
      Container.from_stream (out ++ rest) =
        if (c.cloud_id = []) ↔ (c.flag &&& 4 = 0) then none else some (c, rest) := by
  refine ⟨containerBytes c, container_to_bytes_eq c h, ?_⟩
  rw [container_from_stream_bytes c h rest]
  exact if_congr (by tauto) rfl rfl

/-- C1 witness: the gate evaluated on a concrete record with empty cloud id
and flag 5 (bit 2 set): it decodes back to itself. -/
theorem claim1_witness :
    ∃ out, Container.to_bytes ⟨[65], [], 1, 5, List.replicate 16 0, 0, 0⟩ = some out ∧
      Container.from_stream (out ++ []) =
        if (([] : List Nat) = []) ↔ ((5 : Nat) &&& 4 = 0) then none
        else some (⟨[65], [], 1, 5, List.replicate 16 0, 0, 0⟩, []) :=
  claim1_flag_cloud_gate ⟨[65], [], 1, 5, List.replicate 16 0, 0, 0⟩ [] (by decide)

/-- C2: the merge step keeps exactly the existing entries whose name is not
among the batch names, in their original relative order, followed by the
batch in batch order; in particular the spec's concrete scenario holds. -/
theorem claim2_merge_shape (old new : List Container) :
    (∃ kept, mergeContainers old new = kept ++ new ∧ kept.Sublist old ∧
      ∀ c, c ∈ kept ↔ (c ∈ old ∧ c.container_name ∉ newContainerNames new)) ∧
    mergeContainers [oldLevel, oldLevelMeta] [newLevel, newPlayersABC] =
      [oldLevelMeta, newLevel, newPlayersABC] := by
  refine ⟨⟨old.filter (fun c => decide (c.container_name ∉ newContainerNames new)),
    rfl, merge_kept_sublist old new, ?_⟩, by decide⟩
  intro c
  simp [List.mem_filter]

/-- C2 witness: the concrete scenario extracted through the theorem. -/
theorem claim2_witness :
    mergeContainers [oldLevel, oldLevelMeta] [newLevel, newPlayersABC] =
      [oldLevelMeta, newLevel, newPlayersABC] :=
  (claim2_merge_shape [] []).2

/-- C3 counterexample: an index that already holds two entries named "A"
keeps both through a merge with a distinct-named batch, so the output has a
duplicated name. -/
theorem claim3_counterexample :
    (([⟨[66], [], 1, 5, List.replicate 16 9, 0, 0⟩] : List Container).map
      Container.container_name).Nodup ∧
    ¬ ((mergeContainers
        [⟨[65], [], 1, 5, List.replicate 16 7, 0, 0⟩,
         ⟨[65], [], 1, 5, List.replicate 16 8, 0, 0⟩]
        [⟨[66], [], 1, 5, List.replicate 16 9, 0, 0⟩]).map
      Container.container_name).Nodup := by decide

/-- C3 (amended): when the existing index's names are themselves pairwise
distinct and the batch names are pairwise distinct, the merged sequence has
no two entries sharing a name. -/
theorem claim3_merge_nodup (old new : List Container)
    (hold : (old.map Container.container_name).Nodup)
    (hnew : (new.map Container.container_name).Nodup) :
    ((mergeContainers old new).map Container.container_name).Nodup := by
  rw [mergeContainers, List.map_append]
  refine List.Nodup.append ?_ hnew ?_
  · exact hold.sublist ((List.filter_sublist old).map Container.container_name)
  · intro a ha hb
    obtain ⟨c, hc, rfl⟩ := List.mem_map.mp ha
    have := (List.mem_filter.mp hc).2
    simp only [decide_eq_true_eq, newContainerNames] at this
    exact this hb

/-- C3 witness: duplicate-freedom after a concrete merge. -/
theorem claim3_witness :
    ((mergeContainers [oldLevel, oldLevelMeta] [newLevel, newPlayersABC]).map
      Container.container_name).Nodup :=
  claim3_merge_nodup [oldLevel, oldLevelMeta] [newLevel, newPlayersABC]
    (by decide) (by decide)

/-- C4 counterexample: an index whose package name holds one
supplementary-plane character satisfies every decode-time invariant
(it has no containers), encodes successfully, but its encoding fails to
decode: the u32 prefix counts characters while the payload needs two code
units, so the decoder reads a lone surrogate and raises. -/
theorem claim4_counterexample :
    (ContainerIndex.write_file idxAstral).isSome = true ∧
    (ContainerIndex.write_file idxAstral).bind ContainerIndex.from_stream = none := by
  decide

/-- C4 (amended): for every valid ContainerIndex — in-range numeric fields,
strings of basic-plane non-surrogate characters, 16-byte identifiers, and
entries passing the decode-time checks — decoding the written bytes yields
the index back field for field with nothing left over, and the count word
written is computed from the live container sequence. -/
theorem claim4_roundtrip (x : ContainerIndex) (h : x.valid) :
    ∃ body, x.write_file = some (toLEBytes 4 0xe ++
        (toLEBytes 4 x.containers.length ++ body)) ∧
      ContainerIndex.from_stream (toLEBytes 4 0xe ++
        (toLEBytes 4 x.containers.length ++ body)) = some (x, []) := by
  obtain ⟨body, hw, hr⟩ := containerIndex_roundtrip_aux x [] h
  exact ⟨body, hw, by simpa using hr⟩

/-- C4 witness: the roundtrip evaluated on a concrete two-entry index. -/
theorem claim4_witness :
    ∃ body, idxGood.write_file = some (toLEBytes 4 0xe ++
        (toLEBytes 4 idxGood.containers.length ++ body)) ∧
      ContainerIndex.from_stream (toLEBytes 4 0xe ++
        (toLEBytes 4 idxGood.containers.length ++ body)) = some (idxGood, []) :=
  claim4_roundtrip idxGood (by decide)

/-- C5: the filesystem name derived from a 16-byte identifier is the
uppercase hex of the GUID-convention byte reordering (first three groups
reversed), every deriving site computes the same function, and the function
is injective (hence reversible) on 16-byte identifiers. -/
theorem claim5_hex_dir_name (b b' : List Nat) (hb : b.length = 16)
    (hb2 : ∀ x ∈ b, x < 256) (hb' : b'.length = 16) (hb2' : ∀ x ∈ b', x < 256) :
    hexDirName b = hexUpper ((b.take 4).reverse ++ (((b.drop 4).take 2).reverse ++
      (((b.drop 6).take 2).reverse ++ b.drop 8))) ∧
    contentBlobName b = hexDirName b ∧
    containersDirName b = hexDirName b ∧
    (hexDirName b = hexDirName b' → b = b') := by
  refine ⟨?_, rfl, rfl, fun h => hexDirName_injective b b' hb hb2 hb' hb2' h⟩
  simp [hexDirName, bytes_le, List.append_assoc]

/-- C5 witness: the characterization and the same-site equalities at a
concrete identifier, injectivity applied reflexively. -/
theorem claim5_witness :
    hexDirName (List.range 16) = hexUpper (((List.range 16).take 4).reverse ++
      ((((List.range 16).drop 4).take 2).reverse ++
      ((((List.range 16).drop 6).take 2).reverse ++ (List.range 16).drop 8))) ∧
    contentBlobName (List.range 16) = hexDirName (List.range 16) ∧
    containersDirName (List.range 16) = hexDirName (List.range 16) ∧
    (hexDirName (List.range 16) = hexDirName (List.range 16) →
      List.range 16 = List.range 16) :=
  claim5_hex_dir_name (List.range 16) (List.range 16) (by decide) (by decide)
    (by decide) (by decide)

/-- C6 counterexample: writing the 3-character string "ABC" at fixed width 2
emits 6 bytes, not the claimed exact `N*2 = 4`: the writer never truncates a
value longer than the fixed width. -/
theorem claim6_counterexample :
    write_utf16_fixed_string [65, 66, 67] 2 = some [65, 0, 66, 0, 67, 0] ∧
    (write_utf16_fixed_string [65, 66, 67] 2).map List.length = some 6 := by decide

/-- C6 (amended): writing a basic-plane string at fixed width N emits
`2*len(s) + 2*max(N-len(s),0)` bytes — exactly `N*2` (null-padded) when the
string fits, the full untruncated encoding when it is longer; when it fits,
reading back consumes exactly `N*2` bytes and strips trailing nulls. -/
theorem claim6_fixed_width (v rest : List Nat) (N : Nat)
    (hc : ∀ c ∈ v, validChar c) :
    ∃ out, write_utf16_fixed_string v N = some out ∧
      out.length = 2 * v.length + 2 * (N - v.length) ∧
      (v.length ≤ N → out.length = N * 2 ∧
        read_utf16_fixed_string N (out ++ rest) = some (rstripNull v, rest)) := by
  refine ⟨encBMP v ++ List.replicate (2 * (N - v.length)) 0,
    write_utf16_fixed_string_eq v N hc, ?_, ?_⟩
  · simp [encBMP_length, List.length_replicate]
  · intro hle
    refine ⟨?_, read_write_utf16_fixed_string v rest N hc hle⟩
    simp [encBMP_length, List.length_replicate]
    omega

/-- C6 witness: a two-character string at width 3, written and read back. -/
theorem claim6_witness :
    ∃ out, write_utf16_fixed_string [65, 66] 3 = some out ∧
      out.length = 2 * 2 + 2 * (3 - 2) ∧
      (2 ≤ 3 → out.length = 3 * 2 ∧
        read_utf16_fixed_string 3 (out ++ [9]) = some (rstripNull [65, 66], [9])) := by
  have h := claim6_fixed_width [65, 66] [9] 3 (by decide)
  simpa using h

/-- C7 counterexample: a length-prefixed string read declaring 3 characters
over a stream holding only 2 characters' worth of bytes returns the
shortened string "AB" instead of failing. -/
theorem claim7_counterexample :
    read_utf16_string [3, 0, 0, 0, 65, 0, 66, 0] = some ([65, 66], []) := by decide

/-- C7 (amended): on a stream with fewer bytes than the declared count
requires, `read_utf16_string` consumes everything and returns whatever the
truncated bytes decode to — a shortened string when they are well-formed
UTF-16, a failure only when they are not; the integer readers yield zero at
end of stream. -/
theorem claim7_short_string_read (len : Nat) (body : List Nat)
    (h32 : len < 2 ^ 32) (h0 : len ≠ 0) (hshort : body.length < len * 2) :
    read_utf16_string (toLEBytes 4 len ++ body) =
      (decodeUtf16le body).map (fun t => (t, [])) ∧
    read_u8 [] = (0, []) ∧ read_u32 [] = (0, []) ∧ read_u64 [] = (0, []) := by
  refine ⟨?_, rfl, rfl, rfl⟩
  simp only [read_utf16_string, read_u32_toLE len body h32, if_neg h0]
  rw [List.take_of_length_le (by omega), List.drop_eq_nil_of_le (by omega)]

/-- C7 witness: declared count 3 over a single well-formed character. -/
theorem claim7_witness :
    read_utf16_string (toLEBytes 4 3 ++ [65, 0]) =
      (decodeUtf16le [65, 0]).map (fun t => (t, [])) ∧
    read_u8 [] = (0, []) ∧ read_u32 [] = (0, []) ∧ read_u64 [] = (0, []) :=
  claim7_short_string_read 3 [65, 0] (by decide) (by decide) (by decide)

/-- C8 witness: a one-element manifest over an empty directory fails with
the missing-blob error for the zero identifier, with nothing left over. -/
theorem claim8_witness :
    ContainerFileList.from_stream (fun _ => none) 1
        (flStream ([] ++ (List.replicate 128 0, (List.replicate 16 0,
          List.replicate 16 0)) :: []) []) =
      .error (.missingBlob (hexDirName (List.replicate 16 0)),
        concatBytes (([] : List (List Nat × List Nat × List Nat)).map flElemBytes) ++ []) :=
  claim8_missing_blob (fun _ => none) 1 []
    (List.replicate 128 0, (List.replicate 16 0, List.replicate 16 0)) [] []
    (by decide) (by simp)
    (by set_option maxRecDepth 8192 in decide)
    (by simp) rfl

/-- C9: the merge step changes only the container sequence and the top-level
mtime; flag1, package name, flag2, index id and the reserved word are
untouched, and every retained entry (name not in the batch) survives as the
identical record. -/
theorem claim9_frame (idx : ContainerIndex) (new : List Container) (now : Nat) :
    (importMergeStep idx new now).flag1 = idx.flag1 ∧
    (importMergeStep idx new now).package_name = idx.package_name ∧
    (importMergeStep idx new now).flag2 = idx.flag2 ∧
    (importMergeStep idx new now).index_uuid = idx.index_uuid ∧
    (importMergeStep idx new now).unknown = idx.unknown ∧
    (importMergeStep idx new now).mtime = now ∧
    ∀ c ∈ idx.containers, c.container_name ∉ newContainerNames new →
      c ∈ (importMergeStep idx new now).containers := by
  refine ⟨rfl, rfl, rfl, rfl, rfl, rfl, ?_⟩
  intro c hc hn
  simp [importMergeStep, mergeContainers, List.mem_filter, hc, hn]

/-- C9 witness: a retained entry of a concrete index survives a concrete
merge unchanged. -/
theorem claim9_witness :
    oldLevelMeta ∈ (importMergeStep idxGood [newLevel] 42).containers :=
  (claim9_frame idxGood [newLevel] 42).2.2.2.2.2.2 oldLevelMeta (by decide) (by decide)

/-- C10: every container entry the importer constructs has an empty cloud
id, sequence number 1 and flag 5, so flag bit 2 (value 4) is set while the
cloud id is empty. -/
theorem claim10_created_entry (nm uuidB : List Nat) (mt sz : Nat) :
    (createContainerEntry nm uuidB mt sz).cloud_id = [] ∧
    (createContainerEntry nm uuidB mt sz).seq = 1 ∧
    (createContainerEntry nm uuidB mt sz).flag = 5 ∧
    (createContainerEntry nm uuidB mt sz).flag &&& 4 ≠ 0 :=
  ⟨rfl, rfl, rfl, (by decide : (5 : Nat) &&& 4 ≠ 0)⟩

/-- C10 witness: the constructed entry's constants at a concrete call. -/
theorem claim10_witness :
    (createContainerEntry (pyStr "Save1-Level") (List.replicate 16 3) 20 200).cloud_id = [] ∧
    (createContainerEntry (pyStr "Save1-Level") (List.replicate 16 3) 20 200).seq = 1 ∧
    (createContainerEntry (pyStr "Save1-Level") (List.replicate 16 3) 20 200).flag = 5 ∧
    (createContainerEntry (pyStr "Save1-Level") (List.replicate 16 3) 20 200).flag &&& 4 ≠ 0 :=
  claim10_created_entry (pyStr "Save1-Level") (List.replicate 16 3) 20 200

end PalworldXgp
